import Mathlib

/-!
Verification of the onchain-chronicler backend (src/server/dist/index.js) and
the frontend orchestration glue (src/frontend/src/App.tsx), shallowly embedded
in Lean.  Addresses are modelled as `Nat` with `0` standing for the zero
address (a read returning the zero address is the "no pending request" case);
ledger reads and external calls are modelled as `Except Unit` oracles supplied
as parameters, so every run of the embedded code is a pure function of those
oracles.
-/

namespace OnchainChronicler

/-! ### Confirmation waiter (index.js, `waitForPendingRequest`, lines 222-241) -/

/-- Outcome of one `contract.pendingRequests(txHash)` read: the call either
throws (`err`) or returns a requester address (`ok q`, with `q = 0` the zero
address). -/
inductive ReadOutcome where
  | err : ReadOutcome
  | ok : Nat → ReadOutcome
deriving DecidableEq

/-- Result of a run of the waiter: whether it returned `true`, how many loop
iterations (attempts) it performed, and how many `setTimeout(delayMs)` sleeps
it executed. -/
structure WaitResult where
  success : Bool
  attempts : Nat
  delays : Nat
deriving DecidableEq

/-- The loop body of `waitForPendingRequest`, indexed by the current attempt
number `a` and the remaining attempt budget.  Mirrors index.js lines 223-239:
a successful read of a non-zero requester returns `true` immediately; a read
of the zero address sleeps `delayMs` and continues; a read that throws is
caught, logged and continues without sleeping. -/
def waitFrom (trace : Nat → ReadOutcome) : Nat → Nat → WaitResult
  | _, 0 => ⟨false, 0, 0⟩
  | a, r + 1 =>
    match trace a with
    | .ok q =>
      if q ≠ 0 then ⟨true, 1, 0⟩
      else
        let w := waitFrom trace (a + 1) r
        ⟨w.success, w.attempts + 1, w.delays + 1⟩
    | .err =>
      let w := waitFrom trace (a + 1) r
      ⟨w.success, w.attempts + 1, w.delays⟩

/-- `waitForPendingRequest(txHash, maxAttempts, delayMs)` as a function of the
trace of per-attempt read outcomes (attempt numbers start at 1, as in the
source `for` loop). -/
def waitForPendingRequest (trace : Nat → ReadOutcome) (maxAttempts : Nat) : WaitResult :=
  waitFrom trace 1 maxAttempts

/-- Total milliseconds spent sleeping in a run of the waiter (each executed
sleep is `delayMs` long). -/
def waitElapsedMs (trace : Nat → ReadOutcome) (maxAttempts delayMs : Nat) : Nat :=
  (waitForPendingRequest trace maxAttempts).delays * delayMs

/-- The source predicate `pendingRequester && pendingRequester !== ZeroAddress`
on one read outcome. -/
def isGood : ReadOutcome → Bool
  | .err => false
  | .ok q => decide (q ≠ 0)

/-- A read that succeeded but observed the zero address (the only case in
which the source executes the inter-attempt sleep). -/
def isZeroOk : ReadOutcome → Bool
  | .err => false
  | .ok q => decide (q = 0)

theorem waitFrom_success_iff (trace : Nat → ReadOutcome) :
    ∀ r a, (waitFrom trace a r).success = true ↔
      ∃ k, a ≤ k ∧ k < a + r ∧ isGood (trace k) = true := by
  intro r
  induction r with
  | zero =>
    intro a
    simp only [waitFrom]
    constructor
    · intro h; cases h
    · rintro ⟨k, hk1, hk2, _⟩; omega
  | succ r ih =>
    intro a
    cases htr : trace a with
    | ok q =>
      by_cases hq : q ≠ 0
      · simp only [waitFrom, htr, if_pos hq]
        constructor
        · intro _; exact ⟨a, le_refl a, by omega, by simp [isGood, htr, hq]⟩
        · intro _; trivial
      · simp only [waitFrom, htr, if_neg hq]
        rw [ih (a + 1)]
        constructor
        · rintro ⟨k, hk1, hk2, hk3⟩; exact ⟨k, by omega, by omega, hk3⟩
        · rintro ⟨k, hk1, hk2, hk3⟩
          refine ⟨k, ?_, by omega, hk3⟩
          rcases Nat.eq_or_lt_of_le hk1 with h | h
          · exfalso; rw [← h] at hk3; simp [isGood, htr] at hk3; omega
          · omega
    | err =>
      simp only [waitFrom, htr]
      rw [ih (a + 1)]
      constructor
      · rintro ⟨k, hk1, hk2, hk3⟩; exact ⟨k, by omega, by omega, hk3⟩
      · rintro ⟨k, hk1, hk2, hk3⟩
        refine ⟨k, ?_, by omega, hk3⟩
        rcases Nat.eq_or_lt_of_le hk1 with h | h
        · exfalso; rw [← h] at hk3; simp [isGood, htr] at hk3
        · omega

theorem waitFrom_attempts_le (trace : Nat → ReadOutcome) :
    ∀ r a, (waitFrom trace a r).attempts ≤ r := by
  intro r
  induction r with
  | zero => intro a; simp [waitFrom]
  | succ r ih =>
    intro a
    cases htr : trace a with
    | ok q =>
      by_cases hq : q ≠ 0
      · simp [waitFrom, htr, if_pos hq]
      · simp only [waitFrom, htr, if_neg hq]
        have := ih (a + 1); omega
    | err =>
      simp only [waitFrom, htr]
      have := ih (a + 1); omega

theorem waitFrom_attempts_of_fail (trace : Nat → ReadOutcome) :
    ∀ r a, (waitFrom trace a r).success = false → (waitFrom trace a r).attempts = r := by
  intro r
  induction r with
  | zero => intro a _; simp [waitFrom]
  | succ r ih =>
    intro a h
    cases htr : trace a with
    | ok q =>
      by_cases hq : q ≠ 0
      · exfalso; simp [waitFrom, htr, if_pos hq] at h
      · simp only [waitFrom, htr, if_neg hq] at h ⊢
        have := ih (a + 1) h; omega
    | err =>
      simp only [waitFrom, htr] at h ⊢
      have := ih (a + 1) h; omega

theorem waitFrom_first_success (trace : Nat → ReadOutcome) :
    ∀ r a, (waitFrom trace a r).success = true →
      1 ≤ (waitFrom trace a r).attempts ∧
      isGood (trace (a + (waitFrom trace a r).attempts - 1)) = true ∧
      ∀ j, a ≤ j → j < a + (waitFrom trace a r).attempts - 1 → isGood (trace j) = false := by
  intro r
  induction r with
  | zero => intro a h; cases h
  | succ r ih =>
    intro a h
    cases htr : trace a with
    | ok q =>
      by_cases hq : q ≠ 0
      · simp only [waitFrom, htr, if_pos hq]
        refine ⟨by omega, ?_, ?_⟩
        · simp [isGood, htr, hq]
        · intro j h1 h2; omega
      · simp only [waitFrom, htr, if_neg hq] at h ⊢
        obtain ⟨h1, h2, h3⟩ := ih (a + 1) h
        refine ⟨by omega, ?_, ?_⟩
        · have : a + ((waitFrom trace (a + 1) r).attempts + 1) - 1
              = a + 1 + (waitFrom trace (a + 1) r).attempts - 1 := by omega
          rw [this]; exact h2
        · intro j hj1 hj2
          rcases Nat.eq_or_lt_of_le hj1 with hj | hj
          · rw [← hj]; simp [isGood, htr]; omega
          · exact h3 j (by omega) (by omega)
    | err =>
      simp only [waitFrom, htr] at h ⊢
      obtain ⟨h1, h2, h3⟩ := ih (a + 1) h
      refine ⟨by omega, ?_, ?_⟩
      · have : a + ((waitFrom trace (a + 1) r).attempts + 1) - 1
            = a + 1 + (waitFrom trace (a + 1) r).attempts - 1 := by omega
        rw [this]; exact h2
      · intro j hj1 hj2
        rcases Nat.eq_or_lt_of_le hj1 with hj | hj
        · rw [← hj]; simp [isGood, htr]
        · exact h3 j (by omega) (by omega)

theorem waitFrom_delays_count (trace : Nat → ReadOutcome) :
    ∀ r a, (waitFrom trace a r).delays =
      ((List.range' a (waitFrom trace a r).attempts).filter
        (fun k => isZeroOk (trace k))).length := by
  intro r
  induction r with
  | zero => intro a; simp [waitFrom]
  | succ r ih =>
    intro a
    cases htr : trace a with
    | ok q =>
      by_cases hq : q ≠ 0
      · simp [waitFrom, htr, if_pos hq, List.range'_one, List.filter, isZeroOk, hq]
      · simp only [waitFrom, htr, if_neg hq]
        rw [List.range'_succ, List.filter_cons]
        have hz : isZeroOk (trace a) = true := by simp [isZeroOk, htr]; omega
        simp only [hz, if_pos, List.length_cons]
        rw [ih (a + 1)]
    | err =>
      simp only [waitFrom, htr]
      rw [List.range'_succ, List.filter_cons]
      have hz : isZeroOk (trace a) = false := by simp [isZeroOk, htr]
      simp only [hz, Bool.false_eq_true, if_neg, ih (a + 1)]
      simp

/-- A read trace whose first non-zero pending requester appears exactly at
attempt 3 (attempts 1 and 2 successfully read the zero address). -/
def trace3 : Nat → ReadOutcome := fun k => if k = 3 then .ok 7 else .ok 0

/-- A read trace in which every `pendingRequests` read throws. -/
def traceErr : Nat → ReadOutcome := fun _ => .err

/-- Claim C3: with `maxAttempts = 60`, `waitForPendingRequest` returns success
iff some attempt `k ≤ 60` observes a non-zero pending requester; on success it
returns at the first such attempt; if no attempt ever observes one it performs
exactly 60 attempts and returns failure. -/
theorem C3_waiter_boundary (trace : Nat → ReadOutcome) :
    ((waitForPendingRequest trace 60).success = true ↔
      ∃ k, 1 ≤ k ∧ k ≤ 60 ∧ isGood (trace k) = true)
    ∧ ((waitForPendingRequest trace 60).success = true →
        isGood (trace ((waitForPendingRequest trace 60).attempts)) = true ∧
        (∀ j, 1 ≤ j → j < (waitForPendingRequest trace 60).attempts →
          isGood (trace j) = false) ∧
        1 ≤ (waitForPendingRequest trace 60).attempts ∧
        (waitForPendingRequest trace 60).attempts ≤ 60)
    ∧ ((waitForPendingRequest trace 60).success = false →
        (waitForPendingRequest trace 60).attempts = 60) := by
  refine ⟨?_, ?_, ?_⟩
  · rw [waitForPendingRequest, waitFrom_success_iff]
    constructor
    · rintro ⟨k, h1, h2, h3⟩; exact ⟨k, h1, by omega, h3⟩
    · rintro ⟨k, h1, h2, h3⟩; exact ⟨k, h1, by omega, h3⟩
  · intro hs
    obtain ⟨h1, h2, h3⟩ := waitFrom_first_success trace 60 1 hs
    rw [waitForPendingRequest] at *
    have heq : 1 + (waitFrom trace 1 60).attempts - 1 = (waitFrom trace 1 60).attempts := by
      omega
    rw [heq] at h2
    refine ⟨h2, ?_, h1, waitFrom_attempts_le trace 60 1⟩
    intro j hj1 hj2
    exact h3 j hj1 (by omega)
  · intro hf
    rw [waitForPendingRequest] at *
    exact waitFrom_attempts_of_fail trace 60 1 hf

theorem C3_waiter_boundary_witness :
    isGood (trace3 ((waitForPendingRequest trace3 60).attempts)) = true :=
  ((C3_waiter_boundary trace3).2.1 (by decide)).1

/-- Claim C9, counterexample: when the pending request becomes visible exactly
at attempt 3 with a 2000 ms delay, the waiter has executed only two delay
periods (4000 ms of sleeping), not three (6000 ms): the sleep runs only after
an attempt that did not observe the pending request. -/
theorem C9_counterexample :
    isGood (trace3 3) = true ∧ isGood (trace3 1) = false ∧ isGood (trace3 2) = false ∧
    (waitForPendingRequest trace3 60).success = true ∧
    (waitForPendingRequest trace3 60).attempts = 3 ∧
    waitElapsedMs trace3 60 2000 = 4000 ∧ ¬ waitElapsedMs trace3 60 2000 = 6000 := by
  decide

/-- Claim C9, amended: if attempts 1 and 2 read the zero address and attempt 3
observes the pending request, the waiter returns success at attempt 3 after
exactly two 2000 ms delay periods, i.e. about 4000 ms of accumulated delay
(the source's success log prints `attempt * delayMs`, which overstates the
elapsed delay by one period). -/
theorem C9_amended (trace : Nat → ReadOutcome)
    (h1 : trace 1 = .ok 0) (h2 : trace 2 = .ok 0) (h3 : isGood (trace 3) = true) :
    (waitForPendingRequest trace 60).success = true ∧
    (waitForPendingRequest trace 60).attempts = 3 ∧
    (waitForPendingRequest trace 60).delays = 2 ∧
    waitElapsedMs trace 60 2000 = 4000 := by
  have hg1 : isGood (trace 1) = false := by simp [isGood, h1]
  have hg2 : isGood (trace 2) = false := by simp [isGood, h2]
  have hs : (waitForPendingRequest trace 60).success = true := by
    rw [waitForPendingRequest, waitFrom_success_iff]
    exact ⟨3, by omega, by omega, h3⟩
  obtain ⟨ha1, ha2, ha3⟩ := waitFrom_first_success trace 60 1 hs
  have hub : (waitFrom trace 1 60).attempts ≤ 3 := by
    by_contra hgt
    have hbad := ha3 3 (by omega) (by omega)
    rw [h3] at hbad
    exact Bool.noConfusion hbad
  have hn3 : (waitFrom trace 1 60).attempts = 3 := by
    rcases (show (waitFrom trace 1 60).attempts = 1 ∨ (waitFrom trace 1 60).attempts = 2 ∨
        (waitFrom trace 1 60).attempts = 3 by omega) with h | h | h
    · rw [h] at ha2; norm_num at ha2; rw [hg1] at ha2; exact absurd ha2 (by simp)
    · rw [h] at ha2; norm_num at ha2; rw [hg2] at ha2; exact absurd ha2 (by simp)
    · exact h
  obtain ⟨q, hq, hqne⟩ : ∃ q, trace 3 = .ok q ∧ q ≠ 0 := by
    cases ht : trace 3 with
    | err => rw [ht] at h3; simp [isGood] at h3
    | ok q => rw [ht] at h3; simp [isGood] at h3; exact ⟨q, rfl, h3⟩
  have hd : (waitForPendingRequest trace 60).delays = 2 := by
    rw [waitForPendingRequest, waitFrom_delays_count, hn3]
    rw [show List.range' 1 3 = [1, 2, 3] from rfl]
    simp [List.filter, isZeroOk, h1, h2, hq, hqne]
  refine ⟨hs, ?_, hd, ?_⟩
  · rw [waitForPendingRequest]; exact hn3
  · rw [waitElapsedMs, hd]

theorem C9_amended_witness :
    (waitForPendingRequest trace3 60).attempts = 3 ∧ waitElapsedMs trace3 60 2000 = 4000 :=
  ⟨(C9_amended trace3 (by decide) (by decide) (by decide)).2.1,
   (C9_amended trace3 (by decide) (by decide) (by decide)).2.2.2⟩

/-- Claim C10: the inter-attempt delay is executed exactly after those
attempts whose read succeeded but observed the zero address (an attempt whose
read throws proceeds to the next attempt with no delay); hence a run in which
every read throws performs all 60 attempts with zero delays, returning failure
after 0 ms of accumulated delay instead of the ~2-minute ceiling. -/
theorem C10_error_skips_delay (trace : Nat → ReadOutcome) :
    ((waitForPendingRequest trace 60).delays =
      ((List.range' 1 (waitForPendingRequest trace 60).attempts).filter
        (fun k => isZeroOk (trace k))).length)
    ∧ ((∀ k, trace k = .err) →
        waitForPendingRequest trace 60 = ⟨false, 60, 0⟩ ∧
        waitElapsedMs trace 60 2000 = 0) := by
  constructor
  · rw [waitForPendingRequest]
    exact waitFrom_delays_count trace 60 1
  · intro hall
    have hsucc : (waitForPendingRequest trace 60).success = false := by
      cases hsv : (waitForPendingRequest trace 60).success
      · rfl
      · exfalso
        rw [waitForPendingRequest] at hsv
        obtain ⟨k, _, _, hk⟩ := (waitFrom_success_iff trace 60 1).1 hsv
        rw [hall k] at hk
        simp [isGood] at hk
    have hatt : (waitForPendingRequest trace 60).attempts = 60 := by
      rw [waitForPendingRequest] at *
      exact waitFrom_attempts_of_fail trace 60 1 hsucc
    have hdel : (waitForPendingRequest trace 60).delays = 0 := by
      rw [waitForPendingRequest, waitFrom_delays_count]
      rw [List.length_eq_zero, List.filter_eq_nil_iff]
      intro k _
      rw [hall k]
      simp [isZeroOk]
    refine ⟨?_, ?_⟩
    · cases hW : waitForPendingRequest trace 60
      rw [hW] at hsucc hatt hdel
      simp only at hsucc hatt hdel
      rw [hsucc, hatt, hdel]
    · rw [waitElapsedMs, hdel]

theorem C10_error_skips_delay_witness :
    waitForPendingRequest traceErr 60 = ⟨false, 60, 0⟩ :=
  ((C10_error_skips_delay traceErr).2 (fun _ => rfl)).1

/-! ### Chunked event scan (index.js, `/api/leaderboard` lines 89-142 and
`/api/chronicles` lines 144-189) -/

/-- `CHUNK_SIZE` from index.js lines 94 and 147. -/
def CHUNK_SIZE : Nat := 1000

/-- `LOOKBACK_BLOCKS` for the leaderboard scan (index.js line 95). -/
def LOOKBACK_BLOCKS : Nat := 10000

/-- `LOOKBACK_BLOCKS` for the chronicles scan (index.js line 148). -/
def CHRONICLES_LOOKBACK_BLOCKS : Nat := 50000

/-- A `RequestSubmitted` log entry: its containing block number and the
`user` argument (0 models a falsy/absent `event.args?.user`). -/
structure ChainEvent where
  blockNumber : Nat
  user : Nat
deriving DecidableEq

/-- A deterministic, error-free ledger serves `queryFilter(filter, lo, hi)` as
the sublist of its event log whose block numbers lie in `[lo, hi]`. -/
def queryFilter (ledger : List ChainEvent) (fromBlock toBlock : Nat) : List ChainEvent :=
  ledger.filter (fun e => decide (fromBlock ≤ e.blockNumber ∧ e.blockNumber ≤ toBlock))

/-- The chunk bounds visited by the scan loop
`for (let fromBlock = startBlock; fromBlock <= currentBlock; fromBlock += CHUNK_SIZE)`
with `toBlock = Math.min(fromBlock + CHUNK_SIZE - 1, currentBlock)`. -/
def chunkLoop (currentBlock fromBlock : Nat) : List (Nat × Nat) :=
  if _h : fromBlock ≤ currentBlock then
    (fromBlock, min (fromBlock + CHUNK_SIZE - 1) currentBlock) ::
      chunkLoop currentBlock (fromBlock + CHUNK_SIZE)
  else []
termination_by currentBlock + 1 - fromBlock
decreasing_by simp only [CHUNK_SIZE]; omega

/-- The scan loop of the leaderboard endpoint: each chunk is queried inside a
`try`; a chunk whose query throws is logged and skipped, and the loop
continues with the next chunk. -/
def scanEvents {α : Type} (query : Nat → Nat → Except Unit (List α))
    (currentBlock fromBlock : Nat) : List α :=
  if _h : fromBlock ≤ currentBlock then
    (match query fromBlock (min (fromBlock + CHUNK_SIZE - 1) currentBlock) with
      | .ok evs => evs
      | .error _ => []) ++ scanEvents query currentBlock (fromBlock + CHUNK_SIZE)
  else []
termination_by currentBlock + 1 - fromBlock
decreasing_by simp only [CHUNK_SIZE]; omega

/-- The events contributed by a list of chunk bounds: a chunk whose query
throws contributes nothing. -/
def chunkResults {α : Type} (query : Nat → Nat → Except Unit (List α)) :
    List (Nat × Nat) → List α
  | [] => []
  | p :: rest =>
    (match query p.1 p.2 with
      | .ok evs => evs
      | .error _ => []) ++ chunkResults query rest

theorem chunkLoop_of_le {c f : Nat} (h : f ≤ c) :
    chunkLoop c f = (f, min (f + CHUNK_SIZE - 1) c) :: chunkLoop c (f + CHUNK_SIZE) := by
  rw [chunkLoop]
  simp [h]

theorem chunkLoop_of_gt {c f : Nat} (h : ¬ f ≤ c) : chunkLoop c f = [] := by
  rw [chunkLoop]
  simp [h]

theorem scanEvents_of_le {α : Type} {query : Nat → Nat → Except Unit (List α)} {c f : Nat}
    (h : f ≤ c) :
    scanEvents query c f =
      (match query f (min (f + CHUNK_SIZE - 1) c) with
        | .ok evs => evs
        | .error _ => []) ++ scanEvents query c (f + CHUNK_SIZE) := by
  rw [scanEvents]
  simp [h]

theorem scanEvents_of_gt {α : Type} {query : Nat → Nat → Except Unit (List α)} {c f : Nat}
    (h : ¬ f ≤ c) : scanEvents query c f = [] := by
  rw [scanEvents]
  simp [h]

/-- A query served by an error-free deterministic ledger. -/
def pureQuery (ledger : List ChainEvent) : Nat → Nat → Except Unit (List ChainEvent) :=
  fun lo hi => .ok (queryFilter ledger lo hi)

theorem count_queryFilter (ledger : List ChainEvent) (e : ChainEvent) (lo hi : Nat) :
    (queryFilter ledger lo hi).count e =
      if lo ≤ e.blockNumber ∧ e.blockNumber ≤ hi then ledger.count e else 0 := by
  by_cases hin : lo ≤ e.blockNumber ∧ e.blockNumber ≤ hi
  · rw [if_pos hin, queryFilter]
    exact List.count_filter (by simpa using hin)
  · rw [if_neg hin, List.count_eq_zero]
    intro hmem
    exact hin (by simpa using List.of_mem_filter hmem)

theorem count_queryFilter_split (ledger : List ChainEvent) (e : ChainEvent) {lo mid hi : Nat}
    (h1 : lo ≤ mid) (h2 : mid ≤ hi) :
    (queryFilter ledger lo hi).count e =
      (queryFilter ledger lo mid).count e + (queryFilter ledger (mid + 1) hi).count e := by
  rw [count_queryFilter, count_queryFilter, count_queryFilter]
  split_ifs <;> omega

theorem scan_count (ledger : List ChainEvent) (e : ChainEvent) (c : Nat) :
    ∀ f, (scanEvents (pureQuery ledger) c f).count e = (queryFilter ledger f c).count e := by
  have key : ∀ n f, c + 1 - f ≤ n →
      (scanEvents (pureQuery ledger) c f).count e = (queryFilter ledger f c).count e := by
    intro n
    induction n with
    | zero =>
      intro f hf
      have hgt : ¬ f ≤ c := by omega
      rw [scanEvents_of_gt hgt, count_queryFilter, if_neg (by omega)]
      simp
    | succ n ih =>
      intro f hf
      by_cases h : f ≤ c
      · rw [scanEvents_of_le h, List.count_append]
        show (queryFilter ledger f (min (f + CHUNK_SIZE - 1) c)).count e + _ = _
        rw [ih (f + CHUNK_SIZE) (by simp only [CHUNK_SIZE]; omega)]
        by_cases hend : f + CHUNK_SIZE - 1 < c
        · rw [min_eq_left (by omega)]
          rw [show f + CHUNK_SIZE = (f + CHUNK_SIZE - 1) + 1 by
            simp only [CHUNK_SIZE]; omega]
          exact (count_queryFilter_split ledger e
            (by simp only [CHUNK_SIZE]; omega) (by omega)).symm
        · rw [min_eq_right (by omega)]
          rw [count_queryFilter ledger e (f + CHUNK_SIZE) c,
            if_neg (by simp only [CHUNK_SIZE] at hend ⊢; omega)]
          omega
      · rw [scanEvents_of_gt h, count_queryFilter, if_neg (by omega)]
        simp
  intro f
  exact key (c + 1 - f) f (le_refl _)

theorem mem_chunkLoop_iff (c : Nat) :
    ∀ f (p : Nat × Nat), p ∈ chunkLoop c f ↔
      ∃ i, p.1 = f + CHUNK_SIZE * i ∧ p.1 ≤ c ∧ p.2 = min (p.1 + CHUNK_SIZE - 1) c := by
  have key : ∀ n f, c + 1 - f ≤ n → ∀ p : Nat × Nat, p ∈ chunkLoop c f ↔
      ∃ i, p.1 = f + CHUNK_SIZE * i ∧ p.1 ≤ c ∧ p.2 = min (p.1 + CHUNK_SIZE - 1) c := by
    intro n
    induction n with
    | zero =>
      intro f hf p
      have hgt : ¬ f ≤ c := by omega
      rw [chunkLoop_of_gt hgt]
      simp only [List.not_mem_nil, false_iff]
      rintro ⟨i, hi1, hi2, _⟩
      have hfp : f ≤ p.1 := hi1 ▸ Nat.le_add_right f (CHUNK_SIZE * i)
      omega
    | succ n ih =>
      intro f hf p
      by_cases h : f ≤ c
      · rw [chunkLoop_of_le h, List.mem_cons,
          ih (f + CHUNK_SIZE) (by simp only [CHUNK_SIZE]; omega) p]
        constructor
        · rintro (hp | ⟨i, hi1, hi2, hi3⟩)
          · exact ⟨0, by rw [hp]; simp, by rw [hp]; exact h, by rw [hp]⟩
          · exact ⟨i + 1, by rw [hi1]; simp only [CHUNK_SIZE]; omega, hi2, hi3⟩
        · rintro ⟨i, hi1, hi2, hi3⟩
          cases i with
          | zero =>
            left
            have hp1 : p.1 = f := by omega
            have hp2 : p.2 = min (f + CHUNK_SIZE - 1) c := by rw [hi3, hp1]
            exact Prod.ext hp1 hp2
          | succ j =>
            right
            exact ⟨j, by rw [hi1]; simp only [CHUNK_SIZE]; omega, hi2, hi3⟩
      · rw [chunkLoop_of_gt h]
        simp only [List.not_mem_nil, false_iff]
        rintro ⟨i, hi1, hi2, _⟩
        have hfp : f ≤ p.1 := hi1 ▸ Nat.le_add_right f (CHUNK_SIZE * i)
        omega
  intro f
  exact key (c + 1 - f) f (le_refl _)

theorem mem_chunkLoop_start_ge {c f : Nat} {p : Nat × Nat} (h : p ∈ chunkLoop c f) :
    f ≤ p.1 := by
  obtain ⟨i, hi1, _, _⟩ := (mem_chunkLoop_iff c f p).1 h
  exact hi1 ▸ Nat.le_add_right f (CHUNK_SIZE * i)

theorem chunkLoop_partition (c : Nat) :
    ∀ f b, f ≤ b → b ≤ c → ∃! p : Nat × Nat, p ∈ chunkLoop c f ∧ p.1 ≤ b ∧ b ≤ p.2 := by
  have key : ∀ n f, c + 1 - f ≤ n → ∀ b, f ≤ b → b ≤ c →
      ∃! p : Nat × Nat, p ∈ chunkLoop c f ∧ p.1 ≤ b ∧ b ≤ p.2 := by
    intro n
    induction n with
    | zero => intro f hf b hb1 hb2; omega
    | succ n ih =>
      intro f hf b hb1 hb2
      have h : f ≤ c := le_trans hb1 hb2
      by_cases hb : b ≤ min (f + CHUNK_SIZE - 1) c
      · refine ⟨(f, min (f + CHUNK_SIZE - 1) c),
          ⟨by rw [chunkLoop_of_le h]; exact List.mem_cons_self _ _, hb1, hb⟩, ?_⟩
        rintro p' ⟨hmem, hp1, hp2⟩
        rw [chunkLoop_of_le h] at hmem
        rcases List.mem_cons.1 hmem with hp | hp
        · exact hp
        · exfalso
          have := mem_chunkLoop_start_ge hp
          simp only [CHUNK_SIZE] at this hb ⊢
          omega
      · have hge : f + CHUNK_SIZE ≤ b := by
          simp only [CHUNK_SIZE] at hb ⊢
          omega
        obtain ⟨p, ⟨hm, h1, h2⟩, huniq⟩ :=
          ih (f + CHUNK_SIZE) (by simp only [CHUNK_SIZE]; omega) b hge hb2
        refine ⟨p, ⟨by rw [chunkLoop_of_le h]; exact List.mem_cons_of_mem _ hm, h1, h2⟩, ?_⟩
        rintro p' ⟨hmem, hp1, hp2⟩
        rw [chunkLoop_of_le h] at hmem
        rcases List.mem_cons.1 hmem with hp | hp
        · exfalso
          have : p'.2 = min (f + CHUNK_SIZE - 1) c := by rw [hp]
          omega
        · exact huniq p' ⟨hp, hp1, hp2⟩
  intro f
  exact key (c + 1 - f) f (le_refl _)

theorem scanEvents_eq_chunkResults {α : Type} (query : Nat → Nat → Except Unit (List α))
    (c : Nat) : ∀ f, scanEvents query c f = chunkResults query (chunkLoop c f) := by
  have key : ∀ n f, c + 1 - f ≤ n →
      scanEvents query c f = chunkResults query (chunkLoop c f) := by
    intro n
    induction n with
    | zero =>
      intro f hf
      have hgt : ¬ f ≤ c := by omega
      rw [scanEvents_of_gt hgt, chunkLoop_of_gt hgt]
      rfl
    | succ n ih =>
      intro f hf
      by_cases h : f ≤ c
      · rw [scanEvents_of_le h, chunkLoop_of_le h]
        show _ = _ ++ chunkResults query (chunkLoop c (f + CHUNK_SIZE))
        rw [ih (f + CHUNK_SIZE) (by simp only [CHUNK_SIZE]; omega)]
      · rw [scanEvents_of_gt h, chunkLoop_of_gt h]
        rfl
  intro f
  exact key (c + 1 - f) f (le_refl _)

/-- Claim C2: the scan's chunks exactly partition `[fromBlock, currentBlock]`
(every block in the range is covered by exactly one chunk), the chunks are the
consecutive width-1000 windows with the last one clipped at `currentBlock`,
and over an error-free deterministic ledger the aggregated events are a
permutation of those of a single unchunked query over the same range. -/
theorem C2_chunking_transparent (c f : Nat) :
    (∀ b, f ≤ b → b ≤ c → ∃! p : Nat × Nat, p ∈ chunkLoop c f ∧ p.1 ≤ b ∧ b ≤ p.2)
    ∧ (∀ p : Nat × Nat, p ∈ chunkLoop c f ↔
        ∃ i, p.1 = f + CHUNK_SIZE * i ∧ p.1 ≤ c ∧ p.2 = min (p.1 + CHUNK_SIZE - 1) c)
    ∧ (∀ ledger : List ChainEvent,
        scanEvents (pureQuery ledger) c f = chunkResults (pureQuery ledger) (chunkLoop c f)
        ∧ (scanEvents (pureQuery ledger) c f).Perm (queryFilter ledger f c)) := by
  refine ⟨chunkLoop_partition c f, mem_chunkLoop_iff c f, fun ledger => ⟨?_, ?_⟩⟩
  · exact scanEvents_eq_chunkResults (pureQuery ledger) c f
  · rw [List.perm_iff_count]
    intro e
    exact scan_count ledger e c f

theorem C2_chunking_transparent_witness :
    ∃! p : Nat × Nat, p ∈ chunkLoop 1500 0 ∧ p.1 ≤ 1200 ∧ 1200 ≤ p.2 :=
  (C2_chunking_transparent 1500 0).1 1200 (by decide) (by decide)

/-! ### Leaderboard endpoint (index.js lines 89-142) -/

/-- `Set.add` on the user-address accumulator (JS `Set` iterates in insertion
order and ignores re-insertions). -/
def addUnique (s : List Nat) (a : Nat) : List Nat := if a ∈ s then s else s ++ [a]

/-- The per-chunk `events.forEach` of the leaderboard scan: add
`event.args.user` when it is present (truthy). -/
def collectUsers (events : List ChainEvent) : List Nat :=
  events.foldl (fun s e => if e.user ≠ 0 then addUnique s e.user else s) []

/-- Comparator `(a, b) => b.points - a.points`: points descending. -/
def byPointsDesc (x y : Nat × Nat) : Prop := y.2 ≤ x.2

instance : DecidableRel byPointsDesc := fun x y => inferInstanceAs (Decidable (y.2 ≤ x.2))

instance : IsTotal (Nat × Nat) byPointsDesc := ⟨fun x y => Nat.le_total y.2 x.2⟩

instance : IsTrans (Nat × Nat) byPointsDesc := ⟨fun _ _ _ hab hbc => le_trans hbc hab⟩

/-- The `Promise.all` callback (index.js lines 116-127): read
`contract.userPoints(address)`, and fall back to 0 points if the read throws. -/
def fetchPoints (userPoints : Nat → Except Unit Nat) (address : Nat) : Nat × Nat :=
  (address, match userPoints address with | .ok p => p | .error _ => 0)

/-- Lines 129-132: keep `points > 0`, sort by points descending, take top 10. -/
def topUsers (leaderboardData : List (Nat × Nat)) : List (Nat × Nat) :=
  ((leaderboardData.filter (fun u => decide (0 < u.2))).insertionSort byPointsDesc).take 10

/-- The external reads performed by the leaderboard endpoint. -/
structure LeaderboardEnv where
  blockNumber : Except Unit Nat
  queryRequestSubmitted : Nat → Nat → Except Unit (List ChainEvent)
  userPoints : Nat → Except Unit Nat

/-- `GET /api/leaderboard`: everything inside the outer `try` except the
per-chunk and per-address reads (whose failures are caught internally) is
pure, so the handler fails exactly when `provider.getBlockNumber()` fails. -/
def leaderboardHandler (env : LeaderboardEnv) : Except Unit (List (Nat × Nat)) :=
  match env.blockNumber with
  | .error e => .error e
  | .ok currentBlock =>
    let startBlock := max 0 (currentBlock - LOOKBACK_BLOCKS)
    let userAddresses :=
      collectUsers (scanEvents env.queryRequestSubmitted currentBlock startBlock)
    .ok (topUsers (userAddresses.map (fetchPoints env.userPoints)))

/-! ### Chronicles endpoint (index.js lines 144-189) -/

/-- A `ChronicleAdded` log entry (`0` / `""` model falsy `event.args`
fields). -/
structure ChronEvent where
  txHash : Nat
  narrative : String
  requester : Nat
deriving DecidableEq

/-- A chronicle as assembled by the endpoint (line 162-167). -/
structure Chronicle where
  txHash : Nat
  narrative : String
  requester : Nat
  timestamp : Nat
deriving DecidableEq

/-- The truthiness guard `if (txHash && narrative && requester)` (line 160). -/
def eventFieldsPresent (e : ChronEvent) : Bool :=
  decide (e.txHash ≠ 0) && decide (e.narrative ≠ "") && decide (e.requester ≠ 0)

/-- `chroniclesMap.set(txHash, …)`: overwrite in place if the key exists
(keeping its insertion position), else append. -/
def mapSet (m : List (Nat × Chronicle)) (k : Nat) (v : Chronicle) : List (Nat × Chronicle) :=
  if m.any (fun p => p.1 = k) then m.map (fun p => if p.1 = k then (k, v) else p)
  else m ++ [(k, v)]

/-- The `for (const event of events)` body (lines 156-169).  The
`event.getBlock()` read happens inside the chunk's `try`, so a failing
enrichment read throws out of the whole per-event loop: map entries made so
far survive, the remaining events of the chunk are never processed. -/
def processEvents (getBlock : ChronEvent → Except Unit Nat)
    (m : List (Nat × Chronicle)) : List ChronEvent → List (Nat × Chronicle)
  | [] => m
  | e :: rest =>
    if eventFieldsPresent e then
      match getBlock e with
      | .ok ts =>
        processEvents getBlock (mapSet m e.txHash ⟨e.txHash, e.narrative, e.requester, ts⟩) rest
      | .error _ => m
    else processEvents getBlock m rest

/-- The chronicles chunk loop: each chunk's query and event processing run in
a `try` whose failure is logged and skipped, keeping the map accumulated so
far and continuing with the next chunk. -/
def chroniclesScan (query : Nat → Nat → Except Unit (List ChronEvent))
    (getBlock : ChronEvent → Except Unit Nat) (currentBlock fromBlock : Nat)
    (m : List (Nat × Chronicle)) : List (Nat × Chronicle) :=
  if _h : fromBlock ≤ currentBlock then
    chroniclesScan query getBlock currentBlock (fromBlock + CHUNK_SIZE)
      (match query fromBlock (min (fromBlock + CHUNK_SIZE - 1) currentBlock) with
        | .ok evs => processEvents getBlock m evs
        | .error _ => m)
  else m
termination_by currentBlock + 1 - fromBlock
decreasing_by simp only [CHUNK_SIZE]; omega

/-- Comparator `(a, b) => b.timestamp - a.timestamp`: most recent first. -/
def byTimestampDesc (x y : Chronicle) : Prop := y.timestamp ≤ x.timestamp

instance : DecidableRel byTimestampDesc :=
  fun x y => inferInstanceAs (Decidable (y.timestamp ≤ x.timestamp))

/-- The external reads performed by the chronicles endpoint. -/
structure ChroniclesEnv where
  blockNumber : Except Unit Nat
  queryChronicleAdded : Nat → Nat → Except Unit (List ChronEvent)
  getBlock : ChronEvent → Except Unit Nat

/-- `GET /api/chronicles`: scan, then sort the map's values by timestamp
descending and return them with their count. -/
def chroniclesHandler (env : ChroniclesEnv) : Except Unit (Nat × List Chronicle) :=
  match env.blockNumber with
  | .error e => .error e
  | .ok currentBlock =>
    let startBlock := max 0 (currentBlock - CHRONICLES_LOOKBACK_BLOCKS)
    let m := chroniclesScan env.queryChronicleAdded env.getBlock currentBlock startBlock []
    let chronicles := (m.map Prod.snd).insertionSort byTimestampDesc
    .ok (chronicles.length, chronicles)

theorem chroniclesScan_of_le {query : Nat → Nat → Except Unit (List ChronEvent)}
    {getBlock : ChronEvent → Except Unit Nat} {c f : Nat} {m : List (Nat × Chronicle)}
    (h : f ≤ c) :
    chroniclesScan query getBlock c f m =
      chroniclesScan query getBlock c (f + CHUNK_SIZE)
        (match query f (min (f + CHUNK_SIZE - 1) c) with
          | .ok evs => processEvents getBlock m evs
          | .error _ => m) := by
  rw [chroniclesScan]
  simp [h]

theorem chroniclesScan_of_gt {query : Nat → Nat → Except Unit (List ChronEvent)}
    {getBlock : ChronEvent → Except Unit Nat} {c f : Nat} {m : List (Nat × Chronicle)}
    (h : ¬ f ≤ c) : chroniclesScan query getBlock c f m = m := by
  rw [chroniclesScan]
  simp [h]

theorem mem_chunkResults {α : Type} {q : Nat → Nat → Except Unit (List α)}
    {chunks : List (Nat × Nat)} {lo hi : Nat} {evs : List α} {e : α}
    (hm : (lo, hi) ∈ chunks) (hq : q lo hi = .ok evs) (he : e ∈ evs) :
    e ∈ chunkResults q chunks := by
  induction chunks with
  | nil => cases hm
  | cons p rest ih =>
    rcases List.mem_cons.1 hm with hp | hp
    · rw [← hp]
      show e ∈ (match q lo hi with | .ok evs => evs | .error _ => []) ++ chunkResults q rest
      rw [hq]
      exact List.mem_append_left _ he
    · exact List.mem_append_right _ (ih hp)

theorem scanEvents_congr {α : Type} (q q' : Nat → Nat → Except Unit (List α))
    (hqq : ∀ a b, q' a b = q a b ∨ (q a b = .error () ∧ q' a b = .ok [])) (c : Nat) :
    ∀ f, scanEvents q c f = scanEvents q' c f := by
  have key : ∀ n f, c + 1 - f ≤ n → scanEvents q c f = scanEvents q' c f := by
    intro n
    induction n with
    | zero =>
      intro f hf
      have hgt : ¬ f ≤ c := by omega
      rw [scanEvents_of_gt hgt, scanEvents_of_gt hgt]
    | succ n ih =>
      intro f hf
      by_cases h : f ≤ c
      · rw [scanEvents_of_le h, scanEvents_of_le h,
          ih (f + CHUNK_SIZE) (by simp only [CHUNK_SIZE]; omega)]
        rcases hqq f (min (f + CHUNK_SIZE - 1) c) with heq | ⟨herr, hok⟩
        · rw [heq]
        · rw [herr, hok]
      · rw [scanEvents_of_gt h, scanEvents_of_gt h]
  intro f
  exact key (c + 1 - f) f (le_refl _)

theorem chroniclesScan_congr (q q' : Nat → Nat → Except Unit (List ChronEvent))
    (g : ChronEvent → Except Unit Nat)
    (hqq : ∀ a b, q' a b = q a b ∨ (q a b = .error () ∧ q' a b = .ok [])) (c : Nat) :
    ∀ f m, chroniclesScan q g c f m = chroniclesScan q' g c f m := by
  have key : ∀ n f, c + 1 - f ≤ n →
      ∀ m, chroniclesScan q g c f m = chroniclesScan q' g c f m := by
    intro n
    induction n with
    | zero =>
      intro f hf m
      have hgt : ¬ f ≤ c := by omega
      rw [chroniclesScan_of_gt hgt, chroniclesScan_of_gt hgt]
    | succ n ih =>
      intro f hf m
      by_cases h : f ≤ c
      · rw [chroniclesScan_of_le h, chroniclesScan_of_le h]
        rcases hqq f (min (f + CHUNK_SIZE - 1) c) with heq | ⟨herr, hok⟩
        · rw [heq]
          exact ih (f + CHUNK_SIZE) (by simp only [CHUNK_SIZE]; omega) _
        · rw [herr, hok]
          exact ih (f + CHUNK_SIZE) (by simp only [CHUNK_SIZE]; omega) _
      · rw [chroniclesScan_of_gt h, chroniclesScan_of_gt h]
  intro f
  exact key (c + 1 - f) f (le_refl _)

theorem leaderboardHandler_error_iff (env : LeaderboardEnv) :
    leaderboardHandler env = .error () ↔ env.blockNumber = .error () := by
  cases hb : env.blockNumber with
  | error e => cases e; simp [leaderboardHandler, hb]
  | ok n => simp [leaderboardHandler, hb]

theorem chroniclesHandler_error_iff (env : ChroniclesEnv) :
    chroniclesHandler env = .error () ↔ env.blockNumber = .error () := by
  cases hb : env.blockNumber with
  | error e => cases e; simp [chroniclesHandler, hb]
  | ok n => simp [chroniclesHandler, hb]

/-- Claim C6: per-chunk failures are absorbed — a chunk whose query throws
behaves exactly like a chunk with no events, for both the leaderboard scan and
the chronicles scan, and every successfully queried chunk's events reach the
aggregate — while the two endpoints return a caller-visible error exactly when
the outermost read, `provider.getBlockNumber()`, fails. -/
theorem C6_chunk_fault_isolation :
    (∀ env : LeaderboardEnv, leaderboardHandler env = .error () ↔
      env.blockNumber = .error ())
    ∧ (∀ env : ChroniclesEnv, chroniclesHandler env = .error () ↔
      env.blockNumber = .error ())
    ∧ (∀ (q : Nat → Nat → Except Unit (List ChainEvent)) (c f lo hi : Nat)
        (evs : List ChainEvent) (e : ChainEvent), (lo, hi) ∈ chunkLoop c f →
        q lo hi = .ok evs → e ∈ evs → e ∈ scanEvents q c f)
    ∧ (∀ (q q' : Nat → Nat → Except Unit (List ChainEvent)),
        (∀ a b, q' a b = q a b ∨ (q a b = .error () ∧ q' a b = .ok [])) →
        ∀ c f, scanEvents q c f = scanEvents q' c f)
    ∧ (∀ (q q' : Nat → Nat → Except Unit (List ChronEvent))
        (g : ChronEvent → Except Unit Nat),
        (∀ a b, q' a b = q a b ∨ (q a b = .error () ∧ q' a b = .ok [])) →
        ∀ c f m, chroniclesScan q g c f m = chroniclesScan q' g c f m) := by
  refine ⟨leaderboardHandler_error_iff, chroniclesHandler_error_iff, ?_, ?_, ?_⟩
  · intro q c f lo hi evs e hm hq he
    rw [scanEvents_eq_chunkResults]
    exact mem_chunkResults hm hq he
  · intro q q' hqq c f
    exact scanEvents_congr q q' hqq c f
  · intro q q' g hqq c f m
    exact chroniclesScan_congr q q' g hqq c f m

/-- A leaderboard environment whose block-height read fails. -/
def envNoHeight : LeaderboardEnv :=
  ⟨.error (), fun _ _ => .ok [], fun _ => .ok 0⟩

theorem C6_chunk_fault_isolation_witness :
    leaderboardHandler envNoHeight = .error () :=
  (C6_chunk_fault_isolation.1 envNoHeight).mpr rfl

/-- Claim C7: the leaderboard response has at most 10 entries, only entries
with strictly positive points, is sorted by points descending, and each
returned point value is exactly the value the ledger's own `userPoints`
counter returned for that address (event-derived addresses only select which
addresses get queried). -/
theorem C7_leaderboard_shape (env : LeaderboardEnv) (current : Nat)
    (lst : List (Nat × Nat)) (hb : env.blockNumber = .ok current)
    (hr : leaderboardHandler env = .ok lst) :
    lst.length ≤ 10 ∧ List.Sorted byPointsDesc lst ∧
    ∀ p ∈ lst, 0 < p.2 ∧ env.userPoints p.1 = .ok p.2 := by
  rw [leaderboardHandler, hb] at hr
  simp only [Except.ok.injEq] at hr
  subst hr
  refine ⟨List.length_take_le _ _, ?_, ?_⟩
  · exact List.Pairwise.sublist (List.take_sublist _ _)
      (List.sorted_insertionSort byPointsDesc _)
  · intro p hp
    have hp1 : p ∈ (List.filter (fun u => decide (0 < u.2)) _).insertionSort byPointsDesc :=
      List.take_subset _ _ hp
    rw [List.mem_insertionSort] at hp1
    have hpos : 0 < p.2 := by simpa using List.of_mem_filter hp1
    have hp2 := List.mem_of_mem_filter hp1
    obtain ⟨a, _, hfa⟩ := List.mem_map.1 hp2
    refine ⟨hpos, ?_⟩
    rw [fetchPoints] at hfa
    cases hup : env.userPoints a with
    | error e =>
      exfalso
      rw [hup] at hfa
      rw [← hfa] at hpos
      simp at hpos
    | ok v =>
      rw [hup] at hfa
      rw [← hfa]
      exact hup

/-- A concrete leaderboard environment: one event for address 4, whose
on-chain counter reads 5. -/
def envOneUser : LeaderboardEnv :=
  ⟨.ok 0, fun _ _ => .ok [⟨0, 4⟩], fun a => .ok (a + 1)⟩

theorem C7_leaderboard_shape_witness :
    0 < (5 : Nat) ∧ envOneUser.userPoints 4 = .ok 5 := by
  have hscan : scanEvents envOneUser.queryRequestSubmitted 0 (max 0 (0 - LOOKBACK_BLOCKS))
      = [⟨0, 4⟩] := by
    rw [scanEvents_of_le (by decide), scanEvents_of_gt (by decide)]
    rfl
  have hr : leaderboardHandler envOneUser = .ok [(4, 5)] := by
    rw [leaderboardHandler]
    show Except.ok _ = _
    rw [hscan]
    rfl
  exact (C7_leaderboard_shape envOneUser 0 [(4, 5)] rfl hr).2.2 (4, 5) (by decide)

theorem processEvents_stops_at_error (g : ChronEvent → Except Unit Nat)
    (pre post : List ChronEvent) (e : ChronEvent)
    (hguard : eventFieldsPresent e = true) (herr : g e = .error ()) :
    ∀ m, processEvents g m (pre ++ e :: post) = processEvents g m pre := by
  induction pre with
  | nil =>
    intro m
    show processEvents g m (e :: post) = m
    simp [processEvents, hguard, herr]
  | cons a pre ih =>
    intro m
    show processEvents g m (a :: (pre ++ e :: post)) = processEvents g m (a :: pre)
    by_cases hga : eventFieldsPresent a = true
    · cases hgb : g a with
      | ok ts =>
        simp only [processEvents, hga, if_true, hgb]
        exact ih _
      | error u =>
        simp only [processEvents, hga, if_true, hgb]
    · simp only [processEvents, hga, if_false, Bool.false_eq_true]
      exact ih m

theorem chroniclesScan_congr_dropTail (q q' : Nat → Nat → Except Unit (List ChronEvent))
    (g : ChronEvent → Except Unit Nat)
    (hqq : ∀ a b, q' a b = q a b ∨ ∃ pre e post, q a b = .ok (pre ++ e :: post) ∧
      eventFieldsPresent e = true ∧ g e = .error () ∧ q' a b = .ok pre) (c : Nat) :
    ∀ f m, chroniclesScan q g c f m = chroniclesScan q' g c f m := by
  have key : ∀ n f, c + 1 - f ≤ n →
      ∀ m, chroniclesScan q g c f m = chroniclesScan q' g c f m := by
    intro n
    induction n with
    | zero =>
      intro f hf m
      have hgt : ¬ f ≤ c := by omega
      rw [chroniclesScan_of_gt hgt, chroniclesScan_of_gt hgt]
    | succ n ih =>
      intro f hf m
      by_cases h : f ≤ c
      · rw [chroniclesScan_of_le h, chroniclesScan_of_le h]
        rcases hqq f (min (f + CHUNK_SIZE - 1) c) with heq | ⟨pre, e, post, hq, hg, he, hq'⟩
        · rw [heq]
          exact ih (f + CHUNK_SIZE) (by simp only [CHUNK_SIZE]; omega) _
        · rw [hq, hq']
          show chroniclesScan q g c (f + CHUNK_SIZE) (processEvents g m (pre ++ e :: post)) = _
          rw [processEvents_stops_at_error g pre post e hg he m]
          exact ih (f + CHUNK_SIZE) (by simp only [CHUNK_SIZE]; omega) _
      · rw [chroniclesScan_of_gt h, chroniclesScan_of_gt h]
  intro f
  exact key (c + 1 - f) f (le_refl _)

/-- A retained chronicle event whose enrichment read fails. -/
def chronEvent1 : ChronEvent := ⟨1, "alpha", 2⟩

/-- A chronicle event appearing after `chronEvent1` in the same chunk, whose
enrichment read would succeed. -/
def chronEvent2 : ChronEvent := ⟨2, "beta", 3⟩

/-- A chunk query returning `[chronEvent1, chronEvent2]` for every chunk. -/
def qChron : Nat → Nat → Except Unit (List ChronEvent) :=
  fun _ _ => .ok [chronEvent1, chronEvent2]

/-- A block-timestamp oracle failing exactly on `chronEvent1`. -/
def gBlock : ChronEvent → Except Unit Nat :=
  fun e => if e = chronEvent1 then .error () else .ok 5

/-- Claim C8, counterexample: in a single-chunk scan over `[0, 0]` whose chunk
holds two retained events, a failing timestamp read for the first event also
drops the second event — whose own enrichment read succeeds — because the read
happens inside the chunk's `try` and the thrown error aborts the remaining
per-event loop iterations.  The claim says only the failing entry is dropped;
here the result map is empty. -/
theorem C8_counterexample :
    eventFieldsPresent chronEvent2 = true ∧ gBlock chronEvent2 = .ok 5 ∧
    chroniclesScan qChron gBlock 0 0 [] = [] := by
  refine ⟨by decide, rfl, ?_⟩
  rw [chroniclesScan_of_le (by decide), chroniclesScan_of_gt (by decide)]
  rfl

/-- Claim C8, amended: a failing block-timestamp read for a retained chronicle
event drops that entry and every later event of the same chunk (the chunk's
event loop aborts, keeping only the entries recorded before the failure),
while all other chunks are unaffected. -/
theorem C8_enrichment_failure_drops_tail :
    (∀ (g : ChronEvent → Except Unit Nat) (m : List (Nat × Chronicle))
      (pre post : List ChronEvent) (e : ChronEvent),
      eventFieldsPresent e = true → g e = .error () →
      processEvents g m (pre ++ e :: post) = processEvents g m pre)
    ∧ (∀ (q q' : Nat → Nat → Except Unit (List ChronEvent))
        (g : ChronEvent → Except Unit Nat),
        (∀ a b, q' a b = q a b ∨ ∃ pre e post, q a b = .ok (pre ++ e :: post) ∧
          eventFieldsPresent e = true ∧ g e = .error () ∧ q' a b = .ok pre) →
        ∀ c f m, chroniclesScan q g c f m = chroniclesScan q' g c f m) := by
  constructor
  · intro g m pre post e hg he
    exact processEvents_stops_at_error g pre post e hg he m
  · intro q q' g hqq c f m
    exact chroniclesScan_congr_dropTail q q' g hqq c f m

theorem C8_enrichment_failure_drops_tail_witness :
    processEvents gBlock [] ([] ++ chronEvent1 :: [chronEvent2]) = processEvents gBlock [] [] :=
  C8_enrichment_failure_drops_tail.1 gBlock [] [] [chronEvent2] chronEvent1
    (by decide) rfl

/-! ### AI analysis call (index.js, `analyzeTransactionWithAI`, lines 34-82)
and the analyze-transaction endpoint (lines 243-284) -/

/-- One entry of the Gaia response's `choices` array; `message = some s` means
the message field is present (truthy) with content `s`. -/
structure GaiaChoice where
  message : Option String
deriving DecidableEq

/-- The upstream response: HTTP `response.ok` plus the decoded JSON's
`choices` array (`none` models a missing/falsy field). -/
structure GaiaResponse where
  ok : Bool
  choices : Option (List GaiaChoice)
deriving DecidableEq

/-- `analyzeTransactionWithAI`, validation part (lines 71-81): a thrown fetch,
a non-ok HTTP status, or a response missing `choices`, `choices[0]` or
`choices[0].message` is a hard failure; otherwise the trimmed message content
is returned. -/
def analyzeTransactionWithAI (resp : Except Unit GaiaResponse) : Except Unit String :=
  match resp with
  | .error _ => .error ()
  | .ok r =>
    if r.ok = false then .error ()
    else
      match r.choices with
      | none => .error ()
      | some choices =>
        match choices.head? with
        | none => .error ()
        | some c =>
          match c.message with
          | none => .error ()
          | some content => .ok content.trim

/-- The external calls one `POST /api/analyze-transaction` run can make:
the `pendingRequests` read trace used by the waiter, `provider.getTransaction`
(`ok none` models a `null` transaction), the Gaia call, and
`contract.addChronicle` followed by `txResponse.wait()` (its `ok` value is the
commit transaction hash). -/
structure HandlerEnv where
  pendingTrace : Nat → ReadOutcome
  getTransaction : Except Unit (Option Unit)
  gaiaResponse : Except Unit GaiaResponse
  addChronicle : Except Unit String

/-- Observable outcome of one handler run: the HTTP status, whether the JSON
body carries a `narrative` field and a `chronicleTxHash` field, the `error`
field, and how many AI calls / `addChronicle` submissions the run made. -/
structure HandlerResult where
  status : Nat
  narrative : Option String
  chronicleTxHash : Option String
  errorCode : Option String
  aiCalls : Nat
  commitCalls : Nat
  commitSucceeded : Bool
deriving DecidableEq

/-- `POST /api/analyze-transaction` (lines 243-284).  Any exception thrown
after validation — transaction fetch, AI call, commit — is converted by the
single outer `catch` into a 500 response whose body holds only a generic
message and the error text (in particular no `narrative` field). -/
def analyzeTransactionHandler (validHash : Bool) (env : HandlerEnv) : HandlerResult :=
  if validHash = false then ⟨400, none, none, none, 0, 0, false⟩
  else if (waitForPendingRequest env.pendingTrace 60).success = false then
    ⟨400, none, none, some "PENDING_REQUEST_NOT_FOUND", 0, 0, false⟩
  else
    match env.getTransaction with
    | .error _ => ⟨500, none, none, some "internal", 0, 0, false⟩
    | .ok none => ⟨404, none, none, none, 0, 0, false⟩
    | .ok (some _) =>
      match analyzeTransactionWithAI env.gaiaResponse with
      | .error _ => ⟨500, none, none, some "internal", 1, 0, false⟩
      | .ok narrative =>
        match env.addChronicle with
        | .error _ => ⟨500, none, none, some "internal", 1, 1, false⟩
        | .ok h => ⟨200, some narrative, some h, none, 1, 1, true⟩

/-- `analyzeWithBackend` (App.tsx lines 158-194) as seen by one invoking
closure: `hasAnalyzed` is the React state snapshot captured by that closure
(`setHasAnalyzed(true)` becomes visible only to closures created after the
next render).  If the snapshot is `true` the function returns at once with no
network call; otherwise it POSTs `/api/analyze-transaction` once, incurring
that run's AI calls and commit calls.  Returns `(aiCalls, commitCalls)`. -/
def analyzeWithBackendEffects (hasAnalyzed : Bool) (validHash : Bool)
    (env : HandlerEnv) : Nat × Nat :=
  if hasAnalyzed then (0, 0)
  else ((analyzeTransactionHandler validHash env).aiCalls,
    (analyzeTransactionHandler validHash env).commitCalls)

/-- Combined effects of two invocations of `analyzeWithBackend` for the same
hash, each with the `hasAnalyzed` snapshot its closure captured; the backend
has no per-hash guard, so the effects add up. -/
def duplicateRunTotals (snap1 snap2 : Bool) (validHash : Bool)
    (env : HandlerEnv) : Nat × Nat :=
  ((analyzeWithBackendEffects snap1 validHash env).1 +
    (analyzeWithBackendEffects snap2 validHash env).1,
   (analyzeWithBackendEffects snap1 validHash env).2 +
    (analyzeWithBackendEffects snap2 validHash env).2)

/-- An environment in which every step of the analyze pipeline succeeds. -/
def happyEnv : HandlerEnv :=
  ⟨fun _ => .ok 9, .ok (some ()), .ok ⟨true, some [⟨some "A transfer of 1 STT."⟩]⟩,
    .ok "0xfeed"⟩

/-- Claim C1, counterexample: a re-entrant `analyzeWithBackend` call made
while the first run is still in progress runs from a closure that captured
`hasAnalyzed = false` (the `setHasAnalyzed(true)` update is visible only
after a re-render; e.g. the confirm-error path's `setTimeout` retains the old
closure), and the server applies no per-hash deduplication — so the two runs
perform two AI calls and two commit calls, not at most one each. -/
theorem C1_counterexample :
    (duplicateRunTotals false false true happyEnv).1 = 2 ∧
    (duplicateRunTotals false false true happyEnv).2 = 2 ∧
    ¬ (duplicateRunTotals false false true happyEnv).1 ≤ 1 := by
  decide

/-- Claim C1, amended: a re-entrant call whose closure observes the attempt
flag set (`hasAnalyzed = true`) performs no additional AI call and no
additional commit, and then the total effect of the pair of invocations is
exactly that of the single proceeding run; but a re-entrant call made while
the first run is in progress, before the flag update is visible to it, incurs
a full additional backend run. -/
theorem C1_flag_visible_noop (v : Bool) (env : HandlerEnv) :
    analyzeWithBackendEffects true v env = (0, 0) ∧
    duplicateRunTotals true false v env = analyzeWithBackendEffects false v env := by
  constructor
  · rfl
  · simp [duplicateRunTotals, analyzeWithBackendEffects]

/-- An environment in which the Gaia call itself throws. -/
def envAIFails : HandlerEnv :=
  ⟨fun _ => .ok 3, .ok (some ()), .error (), .ok "0xfeed"⟩

/-- Claim C4: if the narrative-generation step fails — the upstream call
errors, or the response lacks HTTP ok, `choices`, `choices[0]` or a truthy
`choices[0].message` — the handler returns a 500 and performs zero
`addChronicle` calls, leaving the ledger unmutated by this run. -/
theorem C4_ai_failure_no_commit (env : HandlerEnv)
    (hw : (waitForPendingRequest env.pendingTrace 60).success = true)
    (ht : env.getTransaction = .ok (some ()))
    (hai : env.gaiaResponse = .error () ∨ ∃ r, env.gaiaResponse = .ok r ∧
      (r.ok = false ∨ r.choices = none ∨ r.choices = some [] ∨
        ∃ c cs, r.choices = some (c :: cs) ∧ c.message = none)) :
    (analyzeTransactionHandler true env).status = 500 ∧
    (analyzeTransactionHandler true env).commitCalls = 0 ∧
    (analyzeTransactionHandler true env).commitSucceeded = false := by
  have haiErr : analyzeTransactionWithAI env.gaiaResponse = .error () := by
    rcases hai with h | ⟨r, hr, hcase⟩
    · rw [h]; rfl
    · rw [hr, analyzeTransactionWithAI.eq_def]
      by_cases hok : r.ok = false
      · simp [hok]
      · rcases hcase with h1 | h1 | h1 | ⟨c, cs, h1, h2⟩
        · exact absurd h1 hok
        · simp [hok, h1]
        · simp [hok, h1]
        · simp [hok, h1, h2]
  simp [analyzeTransactionHandler, hw, ht, haiErr]

theorem C4_ai_failure_no_commit_witness :
    (analyzeTransactionHandler true envAIFails).status = 500 ∧
    (analyzeTransactionHandler true envAIFails).commitCalls = 0 :=
  ⟨(C4_ai_failure_no_commit envAIFails (by decide) rfl (Or.inl rfl)).1,
   (C4_ai_failure_no_commit envAIFails (by decide) rfl (Or.inl rfl)).2.1⟩

/-- An environment in which a narrative is generated but the commit fails. -/
def envCommitFails : HandlerEnv :=
  ⟨fun _ => .ok 3, .ok (some ()), .ok ⟨true, some [⟨some "A story."⟩]⟩, .error ()⟩

/-- Claim C5, counterexample: the narrative generation succeeds and the
commit fails, yet the 500 response carries no `narrative` field — the outer
`catch` returns only a generic message and the error text, so the generated
narrative is not returned to the caller. -/
theorem C5_counterexample :
    (∃ s, analyzeTransactionWithAI envCommitFails.gaiaResponse = .ok s) ∧
    envCommitFails.addChronicle = .error () ∧
    (analyzeTransactionHandler true envCommitFails).status = 500 ∧
    (analyzeTransactionHandler true envCommitFails).narrative = none :=
  ⟨⟨_, rfl⟩, rfl, rfl, rfl⟩

/-- Claim C5, amended: when the commit (`addChronicle` submission or its
receipt wait) fails after a narrative was generated, the handler returns a
generic 500 whose body contains no narrative and no chronicle reference — the
generated narrative is lost to the caller — and the chronicle is not
considered persisted. -/
theorem C5_commit_failure_drops_narrative (env : HandlerEnv) (s : String)
    (hw : (waitForPendingRequest env.pendingTrace 60).success = true)
    (ht : env.getTransaction = .ok (some ()))
    (hai : analyzeTransactionWithAI env.gaiaResponse = .ok s)
    (hc : env.addChronicle = .error ()) :
    (analyzeTransactionHandler true env).status = 500 ∧
    (analyzeTransactionHandler true env).narrative = none ∧
    (analyzeTransactionHandler true env).chronicleTxHash = none ∧
    (analyzeTransactionHandler true env).aiCalls = 1 ∧
    (analyzeTransactionHandler true env).commitCalls = 1 ∧
    (analyzeTransactionHandler true env).commitSucceeded = false := by
  simp [analyzeTransactionHandler, hw, ht, hai, hc]

theorem C5_commit_failure_drops_narrative_witness :
    (analyzeTransactionHandler true envCommitFails).narrative = none ∧
    (analyzeTransactionHandler true envCommitFails).commitSucceeded = false :=
  ⟨(C5_commit_failure_drops_narrative envCommitFails _ (by decide) rfl rfl rfl).2.1,
   (C5_commit_failure_drops_narrative envCommitFails _ (by decide) rfl rfl rfl).2.2.2.2.2⟩

end OnchainChronicler
